import Mathlib

/-!
Shallow embedding of the mifka01/cache-server repository (Python), covering:

* `cache_server_app/src/storage/strategies.py` — placement strategies
  (`round_robin`, `in_order`, `split`, `least_used`, `Strategy`, `STRATEGIES`);
* `cache_server_app/src/storage/providers/local.py` — `LocalStorage.is_full`;
* `cache_server_app/src/cache/metrics.py` — `CacheMetrics.record_request`;
* `cache_server_app/src/cache/remote.py` — `RemoteCacheHelper.get_remote_cache_url`
  and `narinfo_dict_to_bytes`;
* `cache_server_app/src/api/cache.py` — the private-cache authorization gate;
* `cache_server_app/src/api/server.py` — multipart upload complete/abort;
* `cache_server_app/src/cache/base.py` — `collect_garbage`, `_parse_narinfo_text`,
  `sign`, `fingerprint`.

Python machine integers and floats are modelled as `Int`/`ℚ` (all constants in the
source are exactly representable and all comparisons proved are robust), Python
strings as `List Char`, fallible code as `Except PyErr`.
-/

namespace CacheServer

/-- Python exceptions that the modelled code can raise. -/
inductive PyErr where
  | zeroDivisionError
  | indexError
  | valueError
  | typeError
  | keyError
  | attributeError
  | fileNotFoundError
  | fuelExhausted
deriving DecidableEq, Repr

/-! ## storage/constants.py -/

/-- `MAX_STORAGE_USAGE = 0.95` from `storage/constants.py`. -/
def MAX_STORAGE_USAGE : ℚ := 95 / 100

/-- `CONSIDERED_NEW_FILE_AGE = 3600` seconds from `storage/constants.py`. -/
def CONSIDERED_NEW_FILE_AGE : Int := 3600

/-! ## storage/providers/local.py -/

/-- `LocalStorage.is_full` from `storage/providers/local.py`:
`normalized_used_space = self.get_used_space() / self.get_available_space() * 0.01`
and the result is `normalized_used_space > MAX_STORAGE_USAGE`.  `used` and `avail`
stand for the results of `get_used_space()` and `get_available_space()`. -/
def is_full (used avail : ℚ) : Bool :=
  used / avail * (1 / 100) > MAX_STORAGE_USAGE

/-! ## storage/strategies.py

A back-end is abstracted by the two observations the strategy functions make of
it: `get_used_space()` and `is_full()`. -/

/-- A storage back-end as seen by the strategy functions. -/
structure StorageB where
  used : ℚ
  full : Bool
deriving DecidableEq, Repr

/-- Sum of `storage.get_used_space()` over a list of back-ends
(`total_used = sum(...)` in `split`). -/
def total_used (storages : List StorageB) : ℚ :=
  (storages.map (·.used)).sum

/-- `in_order` from `storage/strategies.py`, returning the index of the selected
back-end: the first back-end that is not full, `none` when all are full
(the Python code then raises `ValueError`). -/
def inOrderIdx : List StorageB → Option Nat
  | [] => none
  | s :: rest => if s.full = false then some 0 else (inOrderIdx rest).map Nat.succ

/-- `in_order` with the `ValueError` on an exhausted list made explicit. -/
def in_order (storages : List StorageB) : Except PyErr Nat :=
  match inOrderIdx storages with
  | some i => Except.ok i
  | none => Except.error PyErr.valueError

/-- The loop of `split` from `storage/strategies.py`.  `least` and `idx` are the
`least_used` and `index` accumulators (initially `0.0` and `0`), `pos` the
absolute position of the head of `storages`.  Python raises `ZeroDivisionError`
computing `used / total_used` on the first iteration when `total_used == 0`, and
`IndexError` on `splits[i]` when the split list is shorter than the storage
list.  The `isinstance(splits[i], int)` guard of the source is vacuous here
because the embedding types the split list as `List Int`. -/
def splitGo (total : ℚ) : List StorageB → List Int → ℚ → Nat → Nat →
    Except PyErr (ℚ × Nat)
  | [], _, least, idx, _ => Except.ok (least, idx)
  | s :: rest, splits, least, idx, pos =>
    if total = 0 then Except.error PyErr.zeroDivisionError
    else
      match splits with
      | [] => Except.error PyErr.indexError
      | p :: ps =>
        let delta := (p : ℚ) - s.used / total * 100
        if least < delta then splitGo total rest ps delta pos (pos + 1)
        else splitGo total rest ps least idx (pos + 1)

/-- `split` from `storage/strategies.py`, returning the index of the selected
back-end.  After the loop Python evaluates `storages[index].is_full()` (an
`IndexError` on an empty list) and falls back to `in_order` when the chosen
back-end is full. -/
def split (storages : List StorageB) (splits : List Int) : Except PyErr Nat :=
  match splitGo (total_used storages) storages splits 0 0 0 with
  | Except.error e => Except.error e
  | Except.ok (_, idx) =>
    match storages.get? idx with
    | none => Except.error PyErr.indexError
    | some s => if s.full then in_order storages else Except.ok idx

/-- The list of deficits `float(splits[i]) - normalized_i` that `split` computes,
with `normalized_i = used_i / total * 100`. -/
def deltaList (storages : List StorageB) (splits : List Int) (total : ℚ) : List ℚ :=
  List.zipWith (fun (s : StorageB) (p : Int) => (p : ℚ) - s.used / total * 100)
    storages splits

/-- Mutable strategy state (`StrategyStateDict`): the round-robin cursor
`state["index"]` and the configured split percentages `state["split"]`. -/
structure SState where
  index : Nat
  splits : List Int
deriving DecidableEq, Repr

/-- `round_robin` from `storage/strategies.py`.  `index % len(storages)` raises
`ZeroDivisionError` on an empty list; the state's cursor is advanced to
`index + 1` before the fullness check. -/
def round_robin (storages : List StorageB) (st : SState) :
    Except PyErr (Nat × SState) :=
  if storages.length = 0 then Except.error PyErr.zeroDivisionError
  else
    let index := st.index % storages.length
    let st' : SState := { st with index := index + 1 }
    match storages.get? index with
    | none => Except.error PyErr.indexError
    | some s =>
      if s.full then (in_order storages).map (fun i => (i, st'))
      else Except.ok (index, st')

/-- `in_order` lifted to the common strategy signature (it ignores and does not
modify the state). -/
def in_order_s (storages : List StorageB) (st : SState) :
    Except PyErr (Nat × SState) :=
  (in_order storages).map (fun i => (i, st))

/-- `split` lifted to the common strategy signature (it reads
`state["split"]` and does not modify the state). -/
def split_s (storages : List StorageB) (st : SState) :
    Except PyErr (Nat × SState) :=
  (split storages st.splits).map (fun i => (i, st))

/-- `least_used` from `storage/strategies.py`: `min(storages, key=used)` —
Python's `min` returns the earliest minimizer and raises `ValueError` on an
empty list — then the full-fallback to `in_order`. -/
def leastUsedIdx : List StorageB → Option Nat
  | [] => none
  | s :: rest =>
    match leastUsedIdx rest with
    | none => some 0
    | some j =>
      match (s :: rest).get? (j + 1) with
      | none => some 0
      | some t => if s.used ≤ t.used then some 0 else some (j + 1)

/-- `least_used` with the fallback and the empty-list `ValueError` explicit. -/
def least_used (storages : List StorageB) (st : SState) :
    Except PyErr (Nat × SState) :=
  match leastUsedIdx storages with
  | none => Except.error PyErr.valueError
  | some i =>
    match storages.get? i with
    | none => Except.error PyErr.indexError
    | some s =>
      if s.full then (in_order storages).map (fun j => (j, st))
      else Except.ok (i, st)

/-- The `Strategy` `StrEnum` from `storage/strategies.py`.  Its members are
exactly `ROUND_ROBIN`, `IN_ORDER` and `SPLIT`; there is no `least-used`
member. -/
inductive Strategy where
  | roundRobin
  | inOrder
  | split
deriving DecidableEq, Repr

/-- The string value of each `Strategy` member. -/
def Strategy.value : Strategy → String
  | .roundRobin => "round-robin"
  | .inOrder => "in-order"
  | .split => "split"

/-- `Strategy(tag)`: the `StrEnum` constructor looks the tag up among the member
values and raises `ValueError` (here: `none`) for any other string. -/
def strategyFromString (tag : String) : Option Strategy :=
  if tag = Strategy.value .roundRobin then some .roundRobin
  else if tag = Strategy.value .inOrder then some .inOrder
  else if tag = Strategy.value .split then some .split
  else none

/-- The `STRATEGIES` dictionary from `storage/strategies.py`: it maps the three
enum members to `round_robin`, `in_order` and `split`; the `least_used`
function is not registered. -/
def STRATEGIES : Strategy →
    (List StorageB → SState → Except PyErr (Nat × SState))
  | .roundRobin => round_robin
  | .inOrder => in_order_s
  | .split => split_s

/-! ## cache/constants.py -/

/-- `LATENCY_WEIGHT = 0.2` from `cache/constants.py`. -/
def LATENCY_WEIGHT : ℚ := 2 / 10

/-- `LOAD_SCORE_WEIGHT = 0.8` from `cache/constants.py`. -/
def LOAD_SCORE_WEIGHT : ℚ := 8 / 10

/-! ## cache/metrics.py -/

/-- `CacheMetrics` counters from `cache/metrics.py` (the clock-derived
`last_update_time` field is not needed by the modelled operations). -/
structure CacheMetrics where
  request_count : Nat
  hit_count : Nat
  miss_count : Nat
  total_response_time : ℚ
deriving DecidableEq, Repr

/-- Freshly constructed metrics (`CacheMetrics.__init__`): every counter is 0. -/
def initMetrics : CacheMetrics :=
  { request_count := 0, hit_count := 0, miss_count := 0, total_response_time := 0 }

/-- `CacheMetrics.record_request` from `cache/metrics.py`. -/
def record_request (m : CacheMetrics) (is_hit : Bool) (response_time : ℚ) :
    CacheMetrics :=
  { request_count := m.request_count + 1
    hit_count := if is_hit then m.hit_count + 1 else m.hit_count
    miss_count := if is_hit then m.miss_count else m.miss_count + 1
    total_response_time := m.total_response_time + response_time }

/-- A sequence of `record_request` calls, applied left to right. -/
def record_requests (m : CacheMetrics) (calls : List (Bool × ℚ)) : CacheMetrics :=
  calls.foldl (fun acc c => record_request acc c.1 c.2) m

/-! ## cache/remote.py — peer selection -/

/-- A peer cache as the selection loop of `get_remote_cache_url` sees it once it
is known to be alive (its ping returned HTTP 200): the advertised `url`, the
measured `latency` in milliseconds, and the advertised `load_score` from its
metrics. -/
structure RemotePeer where
  url : String
  latency : ℚ
  loadScore : ℚ
deriving DecidableEq, Repr

/-- The combined score `latency * LATENCY_WEIGHT + load_score * LOAD_SCORE_WEIGHT`
computed for each alive peer. -/
def peerScore (p : RemotePeer) : ℚ :=
  p.latency * LATENCY_WEIGHT + p.loadScore * LOAD_SCORE_WEIGHT

/-- `score < lowest_score` where `lowest_score` starts as `float('inf')`
(modelled as `none`). -/
def ltOpt (a : ℚ) : Option ℚ → Bool
  | none => true
  | some b => a < b

/-- The selection loop of `RemoteCacheHelper.get_remote_cache_url` over the
alive peers, translated statement by statement: on `score < lowest_score` the
source executes `lowest_score = load_score` (not `lowest_score = score`) and
`best_remote_cache = remote_cache_info`. -/
def bestRemoteGo : List RemotePeer → Option ℚ → Option RemotePeer → Option RemotePeer
  | [], _, best => best
  | p :: rest, lowest, best =>
    if ltOpt (peerScore p) lowest then bestRemoteGo rest (some p.loadScore) (some p)
    else bestRemoteGo rest lowest best

/-- `get_remote_cache_url` restricted to its selection behaviour: given the
alive peers in DHT order, return `best_remote_cache.get("url")`, or `none` when
no alive peer exists. -/
def get_remote_cache_url (alivePeers : List RemotePeer) : Option String :=
  (bestRemoteGo alivePeers none none).map (·.url)

/-! ## Python string primitives

Python `str` values are modelled as `List Char`.  The texts handled by the
modelled code are plain ASCII, so `str.splitlines` is modelled as splitting on
`'\n'` and `str.strip` as stripping the ASCII whitespace characters. -/

/-- Python's substring test `needle in hay`. -/
def isSubOf (n : List Char) (hay : List Char) : Bool :=
  match hay with
  | [] => n.isEmpty
  | c :: t => n.isPrefixOf (c :: t) || isSubOf n t

/-- Python's `sep.join(parts)`. -/
def joinSep (sep : List Char) : List (List Char) → List Char
  | [] => []
  | [x] => x
  | x :: y :: rest => x ++ sep ++ joinSep sep (y :: rest)

/-- Python's `s.startswith(p)` (also the prefix test of a substring search). -/
def strStarts (p s : List Char) : Bool :=
  match p with
  | [] => true
  | a :: as =>
    match s with
    | [] => false
    | b :: bs => a == b && strStarts as bs

/-- Python's `s.split(sep, 1)` for a non-empty separator, as the pair around the
first occurrence of `sep`; `none` when `sep` does not occur (Python then
returns the one-element list `[s]`). -/
def splitOnceAt (sep : List Char) : List Char → Option (List Char × List Char)
  | [] => none
  | c :: t =>
    if strStarts sep (c :: t) then some ([], (c :: t).drop sep.length)
    else (splitOnceAt sep t).map (fun p => (c :: p.1, p.2))

/-- Python's `s.split(sep)` for a one-character separator `sep` (`"".split(sep)`
is `[""]`, i.e. `[[]]`). -/
def splitOnChar (c : Char) : List Char → List (List Char)
  | [] => [[]]
  | x :: xs =>
    if x = c then [] :: splitOnChar c xs
    else
      match splitOnChar c xs with
      | [] => [[x]]
      | p :: ps => (x :: p) :: ps

/-- Python whitespace characters stripped by `str.strip` (ASCII range). -/
def isPySpace (c : Char) : Bool :=
  c == ' ' || c == '\t' || c == '\n' || c == '\r' ||
    c == Char.ofNat 11 || c == Char.ofNat 12

/-- Python's `s.strip()`. -/
def pyStrip (s : List Char) : List Char :=
  ((s.dropWhile isPySpace).reverse.dropWhile isPySpace).reverse

/-- Python's `s.splitlines()` on `'\n'`-separated text: a trailing newline does
not produce a final empty line. -/
def pySplitlines (s : List Char) : List (List Char) :=
  if s.isEmpty then []
  else if s.getLast? = some '\n' then (splitOnChar '\n' s).dropLast
  else splitOnChar '\n' s

/-! ## api/cache.py — private-cache authorization

`do_GET` and `do_HEAD` guard a private cache with

    base64.b64decode(self.headers["Authorization"].split()[1]).decode("utf-8")[1:]
        != self.server.cache.token

The embedding takes the request by the base-64 decoded credential the header
carries (`b64decode` composed with picking the second whitespace-separated
token is treated as an external bijection on well-formed `Basic <b64>`
headers); an absent `Authorization` header yields `headers["Authorization"] is
None`, on which `.split()` raises `AttributeError`. -/

/-- Outcome of the private-cache authorization gate. -/
inductive AuthResult where
  | unauthorized
  | proceed
  | attrError
deriving DecidableEq, Repr

/-- The authorization gate of `BinaryCacheRequestHandler.do_GET`/`do_HEAD` on a
private cache: compare the decoded credential with its first character dropped
(`[1:]`) against the cache token. -/
def authGate (decodedCred : Option (List Char)) (token : List Char) : AuthResult :=
  match decodedCred with
  | none => AuthResult.attrError
  | some cred =>
    if cred.drop 1 ≠ token then AuthResult.unauthorized else AuthResult.proceed

/-! ## api/server.py — multipart upload complete/abort -/

/-- A storage back-end as the upload handlers see it: its id and the names of
the files it holds.  `Storage.find(name)` (non-strict) returns the first file
whose name contains `name` as a substring. -/
structure UploadStorage where
  id : String
  files : List (List Char)
deriving DecidableEq, Repr

/-- A `store_path` table row restricted to the columns the modelled operations
read: `(store_hash, store_suffix, file_hash, refs, storage_id)`; `refs` is the
space-joined reference string exactly as `insert_store_path` stores it. -/
structure StorePathRec where
  storeHash : List Char
  storeSuffix : List Char
  fileHash : List Char
  refs : List Char
  storageId : String
deriving DecidableEq, Repr

/-- Server-side state touched by the upload handlers: the cache's back-ends and
the `store_path` table. -/
structure ServerState where
  storages : List UploadStorage
  records : List StorePathRec
deriving DecidableEq, Repr

/-- `LocalStorage.find(name)` (non-strict): first file containing `name`. -/
def storageFind (needle : List Char) : List (List Char) → Option (List Char)
  | [] => none
  | f :: rest => if isSubOf needle f then some f else storageFind needle rest

/-- `StorageManager.find(path)`: ask each back-end in order; the first hit wins
and is returned together with its back-end. -/
def managerFind (needle : List Char) :
    List UploadStorage → Option (List Char × UploadStorage)
  | [] => none
  | s :: rest =>
    match storageFind needle s.files with
    | some f => some (f, s)
    | none => managerFind needle rest

/-- `os.path.splitext(filename)[1]`: the extension from the last dot on
(the special case of names consisting only of leading dots does not arise for
the `<uuid>.nar.<codec>` names handled here). -/
def splitextExt (s : List Char) : List Char :=
  let r := s.reverse
  let ext := r.takeWhile (fun c => c ≠ '.')
  if ext.length = r.length then [] else '.' :: ext.reverse

/-- The `narInfoCreate` payload fields the complete handler reads. -/
structure NarInfoCreate where
  cStoreHash : List Char
  cStoreSuffix : List Char
  cFileHash : List Char
  cReferences : List (List Char)
deriving DecidableEq, Repr

/-- Rename `old` to `newName` inside the back-end `sid`
(`storage.rename(filename, new_filename)`). -/
def renameInStorages (ss : List UploadStorage) (sid : String)
    (old newName : List Char) : List UploadStorage :=
  ss.map (fun s =>
    if s.id = sid then
      { s with files := s.files.map (fun f => if f = old then newName else f) }
    else s)

/-- The multipart `…/complete` handler from `api/server.py` (HTTP status and
resulting state): locate the reserved file via `StorageManager.find`; on a miss
answer 400 and change nothing; otherwise insert the store-path record, rename
the file to `<cFileHash>.nar<ext>`, and answer 200.  (The DHT publication on a
public cache does not touch the modelled state.) -/
def completeUpload (st : ServerState) (u : List Char) (nc : NarInfoCreate) :
    Nat × ServerState :=
  match managerFind u st.storages with
  | none => (400, st)
  | some (filename, storage) =>
    let row : StorePathRec :=
      { storeHash := nc.cStoreHash
        storeSuffix := nc.cStoreSuffix
        fileHash := nc.cFileHash
        refs := joinSep [' '] nc.cReferences
        storageId := storage.id }
    let newFilename := nc.cFileHash ++ ".nar".toList ++ splitextExt filename
    (200,
      { storages := renameInStorages st.storages storage.id filename newFilename
        records := st.records ++ [row] })

/-- The multipart `…/abort` handler from `api/server.py`: locate the reserved
file; on a miss answer 400 and change nothing; otherwise remove the file and
answer 200.  No record is ever written. -/
def abortUpload (st : ServerState) (u : List Char) : Nat × ServerState :=
  match managerFind u st.storages with
  | none => (400, st)
  | some (filename, storage) =>
    (200,
      { st with
        storages := st.storages.map (fun s =>
          if s.id = storage.id then { s with files := s.files.erase filename }
          else s) })

/-! ## cache/base.py — `collect_garbage`

Timestamps are seconds since the epoch (`Int`); `timedelta(days=retention)` is
`retention * 86400` seconds. -/

/-- A file as the garbage collector sees it: its name and its modification
time (`get_file_creation_time`). -/
structure GCFile where
  name : List Char
  mtime : Int
deriving DecidableEq, Repr

/-- A back-end as the garbage collector sees it. -/
structure GCStorage where
  id : String
  files : List GCFile
deriving DecidableEq, Repr

/-- `CacheServerDatabase.get_store_path_row([storage.id], file_hash=…)`: the
first row matching the file hash within the given back-end. -/
def findRecord (records : List StorePathRec) (sid : String) (fh : List Char) :
    Option StorePathRec :=
  records.find? (fun r => decide (r.fileHash = fh ∧ r.storageId = sid))

/-- `row[8].split(" ") if row[8] else []` — the reference package names of a
store-path row. -/
def rowRefs (row : StorePathRec) : List (List Char) :=
  if row.refs ≠ [] then splitOnChar ' ' row.refs else []

/-- The package name `f"{row[1]}-{row[2]}"` of a store-path row. -/
def rowPackage (row : StorePathRec) : List Char :=
  row.storeHash ++ '-' :: row.storeSuffix

/-- The phase-1 scan of `collect_garbage` over one back-end's `list()`
snapshot.  For each file not starting with `key`: files without a store-path
row are deleted unless `is_new_file` holds; files with a row are classified by
`created_at + retention > now` into the healthy set (package name plus
references) or the expired queue.  Returns the surviving files, the healthy
additions and the expired rows, in scan order. -/
def gcScanStorage (records : List StorePathRec) (retSec now : Int) (sid : String) :
    List GCFile → List GCFile × List (List Char) × List StorePathRec
  | [] => ([], [], [])
  | f :: rest =>
    let acc := gcScanStorage records retSec now sid rest
    if "key".toList.isPrefixOf f.name then (f :: acc.1, acc.2.1, acc.2.2)
    else
      match findRecord records sid (f.name.takeWhile (fun c => c ≠ '.')) with
      | none =>
        if now - f.mtime ≤ CONSIDERED_NEW_FILE_AGE then (f :: acc.1, acc.2.1, acc.2.2)
        else (acc.1, acc.2.1, acc.2.2)
      | some row =>
        if f.mtime + retSec > now then
          (f :: acc.1, rowPackage row :: rowRefs row ++ acc.2.1, acc.2.2)
        else (f :: acc.1, acc.2.1, row :: acc.2.2)

/-- Phase 1 over all back-ends, in order. -/
def gcScanAll (records : List StorePathRec) (retSec now : Int) :
    List GCStorage → List GCStorage × List (List Char) × List StorePathRec
  | [] => ([], [], [])
  | s :: rest =>
    let here := gcScanStorage records retSec now s.id s.files
    let acc := gcScanAll records retSec now rest
    ({ s with files := here.1 } :: acc.1, here.2.1 ++ acc.2.1, here.2.2 ++ acc.2.2)

/-- `storage.remove(filename)` on the back-end `sid`: `os.remove` raises
`FileNotFoundError` when no file of that exact name exists. -/
def gcRemoveFile (ss : List GCStorage) (sid : String) (fname : List Char) :
    Except PyErr (List GCStorage) :=
  match ss.find? (fun s => decide (s.id = sid)) with
  | none => Except.error PyErr.fileNotFoundError
  | some s =>
    if s.files.any (fun f => decide (f.name = fname)) then
      Except.ok (ss.map (fun t =>
        if t.id = sid then
          { t with files := t.files.filter (fun f => decide (f.name ≠ fname)) }
        else t))
    else Except.error PyErr.fileNotFoundError

/-- Phase 2 of `collect_garbage`: the expired queue with one visited bit per
package.  The file name removed is `f"{row[3]}.nar.xz"` — the `.xz` extension
is hard-coded in the source.  The structurally decreasing fuel dominates the
loop's real measure (every row is re-enqueued at most once), so
`2·|queue| + 1` fuel never runs out. -/
def gcPhase2 : Nat → List GCStorage → List StorePathRec → List StorePathRec →
    List (List Char) → List (List Char) →
    Except PyErr (List GCStorage × List StorePathRec)
  | _, storages, records, [], _, _ => Except.ok (storages, records)
  | 0, _, _, _ :: _, _, _ => Except.error PyErr.fuelExhausted
  | fuel + 1, storages, records, row :: queue, healthy, visited =>
    let pkg := rowPackage row
    let filename := row.fileHash ++ ".nar.xz".toList
    match storages.find? (fun s => decide (s.id = row.storageId)) with
    | none => gcPhase2 fuel storages records queue healthy visited
    | some cur =>
      if pkg ∈ healthy then
        gcPhase2 fuel storages records queue (rowRefs row ++ healthy) visited
      else if pkg ∈ visited then
        match gcRemoveFile storages cur.id filename with
        | Except.error e => Except.error e
        | Except.ok storages' =>
          gcPhase2 fuel storages'
            (records.filter (fun r =>
              decide (¬(r.storeHash = row.storeHash ∧ r.storageId = row.storageId))))
            queue healthy visited
      else gcPhase2 fuel storages records (queue ++ [row]) healthy (pkg :: visited)

/-- `BinaryCache.collect_garbage` from `cache/base.py`: phase-1 scan, then the
expired-queue processing.  Returns the resulting back-end contents and
store-path table, or the Python exception the pass raises. -/
def collect_garbage (retentionDays now : Int) (storages : List GCStorage)
    (records : List StorePathRec) :
    Except PyErr (List GCStorage × List StorePathRec) :=
  let retSec := retentionDays * 86400
  let scan := gcScanAll records retSec now storages
  gcPhase2 (2 * scan.2.2.length + 1) scan.1 records scan.2.2 scan.2.1 []

/-! ## cache/base.py and cache/remote.py — narinfo parsing, signing, serializing

`NarInfoDict` is `dict[str, str | List[str]]`; a Python dict preserves
insertion order and overwriting a key keeps its position.  The ed25519
signature and its base-64 encoding are external black boxes (spec §1): `sigOf`
stands for `base64.b64encode(sk.sign(fingerprint))` as a function of the
fingerprint bytes. -/

/-- A value of the narinfo dictionary: a Python `str` or `List[str]`. -/
inductive NarVal where
  | str (s : List Char)
  | list (l : List (List Char))
deriving DecidableEq, Repr

/-- The narinfo dictionary, as an insertion-ordered association list. -/
abbrev NarDict := List (List Char × NarVal)

/-- `d[k] = v`: overwrite in place, or append a new key. -/
def dictSet : NarDict → List Char → NarVal → NarDict
  | [], k, v => [(k, v)]
  | (k', v') :: rest, k, v =>
    if k' = k then (k, v) :: rest else (k', v') :: dictSet rest k v

/-- `d.get(k)` / `d[k]`. -/
def dictGet : NarDict → List Char → Option NarVal
  | [], _ => none
  | (k', v') :: rest, k => if k' = k then some v' else dictGet rest k

/-- Python truthiness of a `str | List[str]` value. -/
def pyTruthy : NarVal → Bool
  | NarVal.str s => decide (s ≠ [])
  | NarVal.list l => decide (l ≠ [])

/-- Python `value == []` for a `str | List[str]` value (a `str` never equals a
list). -/
def eqEmptyList : NarVal → Bool
  | NarVal.list [] => true
  | _ => false

/-- Python's `f"{value}"` for a `str | None | List[str]` value: `str` verbatim,
`None` as `None`, lists via `repr` (`[]`, `['a', 'b']`). -/
def pyFmtVal : NarVal → List Char
  | NarVal.str s => s
  | NarVal.list [] => "[]".toList
  | NarVal.list (x :: xs) =>
    ['['] ++
      joinSep ", ".toList
        ((x :: xs).map (fun e => Char.ofNat 39 :: e ++ [Char.ofNat 39])) ++ [']']

/-- `f"{value}"` where the value may be `None` (a missing dict key). -/
def pyFmtOpt : Option NarVal → List Char
  | none => "None".toList
  | some v => pyFmtVal v

/-- Iteration over a `str | List[str]` value: a list yields its elements, a
`str` yields its characters one by one (as `",".join` would see them). -/
def refsAsList : NarVal → List (List Char)
  | NarVal.str s => s.map (fun c => [c])
  | NarVal.list l => l

/-- One iteration of the line loop of `BinaryCache._parse_narinfo_text`:
skip empty and `Sig:` lines, parse a `References:` line specially (an
`IndexError` when the line has no `": "`), split any other line at the first
`": "` (no occurrence raises `ValueError`, which the source catches and
skips). -/
def parseNarinfoLine (d : NarDict) (line : List Char) : Except PyErr NarDict :=
  if line.isEmpty then Except.ok d
  else if strStarts "Sig:".toList line then Except.ok d
  else if strStarts "References:".toList line then
    match splitOnceAt ": ".toList line with
    | none => Except.error PyErr.indexError
    | some p =>
      Except.ok (dictSet d "References".toList
        (NarVal.list
          (if p.2 ≠ [] ∧ p.2 ≠ [' '] then splitOnChar ' ' p.2 else [])))
  else
    match splitOnceAt ": ".toList line with
    | none => Except.ok d
    | some p => Except.ok (dictSet d p.1 (NarVal.str p.2))

/-- The line loop of `_parse_narinfo_text`. -/
def parseNarinfoLines : NarDict → List (List Char) → Except PyErr NarDict
  | d, [] => Except.ok d
  | d, line :: rest =>
    match parseNarinfoLine d line with
    | Except.error e => Except.error e
    | Except.ok d' => parseNarinfoLines d' rest

/-- The final check of `_parse_narinfo_text`:
`all(result[key] or result["References"] == [] for key in result)`.  Looking up
`result["References"]` raises `KeyError` when a falsy value is met and the key
is absent. -/
def narinfoAllCheck (d : NarDict) : List (List Char × NarVal) → Except PyErr Bool
  | [] => Except.ok true
  | (_, v) :: rest =>
    if pyTruthy v then narinfoAllCheck d rest
    else
      match dictGet d "References".toList with
      | none => Except.error PyErr.keyError
      | some rv =>
        if eqEmptyList rv then narinfoAllCheck d rest else Except.ok false

/-- `BinaryCache._parse_narinfo_text`: `none` models the `return None` on the
failed final check. -/
def parse_narinfo_text (s : List Char) : Except PyErr (Option NarDict) :=
  match parseNarinfoLines [] (pySplitlines (pyStrip s)) with
  | Except.error e => Except.error e
  | Except.ok d =>
    match narinfoAllCheck d d with
    | Except.error e => Except.error e
    | Except.ok true => Except.ok (some d)
    | Except.ok false => Except.ok none

/-- `BinaryCache.fingerprint`:
`1;<store_path>;<nar_hash>;<nar_size>;<comma-joined /nix/store/ refs>`. -/
def fingerprintBytes (references : List (List Char))
    (storePath narHash narSize : List Char) : List Char :=
  "1;".toList ++ storePath ++ [';'] ++ narHash ++ [';'] ++ narSize ++ [';'] ++
    joinSep [','] (references.map (fun r => "/nix/store/".toList ++ r))

/-- `BinaryCache.sign`: parse the narinfo text (a failed parse raises
`ValueError`), build the fingerprint from `References`, `StorePath`, `NarHash`
and `NarSize` (a missing `References` key makes the `",".join` iterate `None`:
`TypeError`), and store `Sig = <keyName>:<sigOf fingerprint>`.  `keyName` is
`content[0]` of the `key.priv` file. -/
def narinfoSign (sigOf : List Char → List Char) (keyName : List Char)
    (narinfo : List Char) : Except PyErr NarDict :=
  match parse_narinfo_text narinfo with
  | Except.error e => Except.error e
  | Except.ok none => Except.error PyErr.valueError
  | Except.ok (some d) =>
    match dictGet d "References".toList with
    | none => Except.error PyErr.typeError
    | some rv =>
      let fp := fingerprintBytes (refsAsList rv)
        (pyFmtOpt (dictGet d "StorePath".toList))
        (pyFmtOpt (dictGet d "NarHash".toList))
        (pyFmtOpt (dictGet d "NarSize".toList))
      Except.ok (dictSet d "Sig".toList (NarVal.str (keyName ++ ':' :: sigOf fp)))

/-- The ordered key list of `RemoteCacheHelper.narinfo_dict_to_bytes`. -/
def orderedKeys : List (List Char) :=
  ["StorePath", "URL", "Compression", "FileHash", "FileSize", "NarHash",
    "NarSize", "Deriver", "System", "References", "Sig"].map String.toList

/-- The line `f"{key}: {value}"`. -/
def mkLine (k v : List Char) : List Char :=
  k ++ ": ".toList ++ v

/-- `RemoteCacheHelper.narinfo_dict_to_bytes`: for every ordered key emit
`f"{key}: {value}\n"` with `value = narinfo_dict.get(key, "")`, joining a
truthy `References` value with spaces first. -/
def narinfo_dict_to_bytes (d : NarDict) : List Char :=
  orderedKeys.foldl
    (fun resp k =>
      let v := (dictGet d k).getD (NarVal.str [])
      let v' :=
        if k = "References".toList ∧ pyTruthy v then
          NarVal.str (joinSep [' '] (refsAsList v))
        else v
      resp ++ mkLine k (pyFmtVal v') ++ ['\n'])
    []

/-! ## Canonical narinfo texts

`NarInfoFields` packages the values of the ten standard non-`Sig` fields;
`renderNarinfo` lays them out exactly as `narinfo_dict_to_bytes` does
(one `Key: value` line per field in canonical order, references joined by
single spaces), optionally followed by a `Sig` line.  It is the shape of every
narinfo this server serves or fetches from a peer. -/

/-- The ten standard narinfo field values (all but `Sig`). -/
structure NarInfoFields where
  storePath : List Char
  url : List Char
  compression : List Char
  fileHash : List Char
  fileSize : List Char
  narHash : List Char
  narSize : List Char
  deriver : List Char
  system : List Char
  references : List (List Char)
deriving DecidableEq, Repr

/-- The lines of a canonical narinfo text. -/
def narLines (f : NarInfoFields) (sig : Option (List Char)) : List (List Char) :=
  [mkLine "StorePath".toList f.storePath,
   mkLine "URL".toList f.url,
   mkLine "Compression".toList f.compression,
   mkLine "FileHash".toList f.fileHash,
   mkLine "FileSize".toList f.fileSize,
   mkLine "NarHash".toList f.narHash,
   mkLine "NarSize".toList f.narSize,
   mkLine "Deriver".toList f.deriver,
   mkLine "System".toList f.system,
   mkLine "References".toList (joinSep [' '] f.references)] ++
    (match sig with
     | some s => [mkLine "Sig".toList s]
     | none => [])

/-- Join lines, terminating each with a newline. -/
def joinLines (ls : List (List Char)) : List Char :=
  ls.foldr (fun l acc => l ++ '\n' :: acc) []

/-- A canonical narinfo text. -/
def renderNarinfo (f : NarInfoFields) (sig : Option (List Char)) : List Char :=
  joinLines (narLines f sig)

/-- The dictionary `_parse_narinfo_text` builds from a canonical narinfo text. -/
def stdDict (f : NarInfoFields) : NarDict :=
  [("StorePath".toList, NarVal.str f.storePath),
   ("URL".toList, NarVal.str f.url),
   ("Compression".toList, NarVal.str f.compression),
   ("FileHash".toList, NarVal.str f.fileHash),
   ("FileSize".toList, NarVal.str f.fileSize),
   ("NarHash".toList, NarVal.str f.narHash),
   ("NarSize".toList, NarVal.str f.narSize),
   ("Deriver".toList, NarVal.str f.deriver),
   ("System".toList, NarVal.str f.system),
   ("References".toList, NarVal.list f.references)]

/-- A well-formed scalar narinfo field value: non-empty, single-line text. -/
def goodVal (s : List Char) : Prop :=
  s ≠ [] ∧ '\n' ∉ s ∧ '\r' ∉ s

/-- A well-formed reference token: a non-empty single-line word without
spaces. -/
def goodTok (s : List Char) : Prop :=
  goodVal s ∧ ' ' ∉ s

/-- A well-formed signature value: a non-empty word without whitespace. -/
def goodSig (s : List Char) : Prop :=
  s ≠ [] ∧ ∀ c ∈ s, isPySpace c = false

/-- A narinfo whose ten standard fields are all present and well-formed. -/
def goodFields (f : NarInfoFields) : Prop :=
  goodVal f.storePath ∧ goodVal f.url ∧ goodVal f.compression ∧
    goodVal f.fileHash ∧ goodVal f.fileSize ∧ goodVal f.narHash ∧
    goodVal f.narSize ∧ goodVal f.deriver ∧ goodVal f.system ∧
    f.references ≠ [] ∧ ∀ r ∈ f.references, goodTok r

instance (s : List Char) : Decidable (goodVal s) := by
  unfold goodVal
  infer_instance

instance (s : List Char) : Decidable (goodTok s) := by
  unfold goodTok
  infer_instance

instance (s : List Char) : Decidable (goodSig s) := by
  unfold goodSig
  infer_instance

instance (f : NarInfoFields) : Decidable (goodFields f) := by
  unfold goodFields
  infer_instance

/-! # Theorems -/

/-- `record_request` preserves `hit_count + miss_count = request_count`. -/
theorem metrics_inv_preserved (calls : List (Bool × ℚ)) :
    ∀ m : CacheMetrics, m.hit_count + m.miss_count = m.request_count →
      (record_requests m calls).hit_count + (record_requests m calls).miss_count
        = (record_requests m calls).request_count := by
  induction calls with
  | nil => intro m h; exact h
  | cons c rest ih =>
    intro m h
    have hstep : (record_request m c.1 c.2).hit_count
        + (record_request m c.1 c.2).miss_count
        = (record_request m c.1 c.2).request_count := by
      cases hb : c.1 <;> simp [record_request, hb] <;> omega
    simpa [record_requests, List.foldl] using ih (record_request m c.1 c.2) hstep

/-- C9: starting from freshly initialized metrics, every `record_request` call
increases `request_count` by exactly one and increments exactly one of
`hit_count` (when `is_hit`) and `miss_count` (otherwise), so
`hit_count + miss_count = request_count` holds after every call. -/
theorem c9_record_request_counts :
    (∀ (m : CacheMetrics) (b : Bool) (t : ℚ),
      (record_request m b t).request_count = m.request_count + 1 ∧
      ((b = true ∧ (record_request m b t).hit_count = m.hit_count + 1 ∧
          (record_request m b t).miss_count = m.miss_count) ∨
        (b = false ∧ (record_request m b t).miss_count = m.miss_count + 1 ∧
          (record_request m b t).hit_count = m.hit_count))) ∧
    ∀ calls : List (Bool × ℚ),
      (record_requests initMetrics calls).hit_count
        + (record_requests initMetrics calls).miss_count
        = (record_requests initMetrics calls).request_count := by
  constructor
  · intro m b t
    cases b <;> simp [record_request]
  · intro calls
    exact metrics_inv_preserved calls initMetrics (by simp [initMetrics])

/-- C2: `LocalStorage.is_full` multiplies the used/available ratio by `0.01`
before comparing with `MAX_STORAGE_USAGE = 0.95`, so a back-end whose used
space is 96% — or even 200% — of its available space is reported as not full,
although `used/available > 0.95`; the code only reports full above a ratio of
95. -/
theorem c2_is_full_threshold_divergence :
    is_full 96 100 = false ∧ is_full 200 100 = false ∧
      (96 : ℚ) / 100 > MAX_STORAGE_USAGE ∧ (200 : ℚ) / 100 > MAX_STORAGE_USAGE ∧
      is_full 9600 100 = true := by
  refine ⟨?_, ?_, ?_, ?_, ?_⟩ <;> norm_num [is_full, MAX_STORAGE_USAGE]

/-- C6 counterexample: the strategy dispatcher does not accept the tags
`least-used` and `split-by-percentage`; `Strategy(tag)` raises `ValueError`
for both, so neither is mapped to a selection function. -/
theorem c6_dispatcher_counterexample :
    strategyFromString "least-used" = none ∧
      strategyFromString "split-by-percentage" = none := by
  constructor <;> rfl

/-- C6 amended: the dispatcher accepts exactly the three tags `round-robin`,
`in-order` and `split`, mapping them to the `round_robin`, `in_order` and
`split` selection functions; the `least_used` selection function exists in the
module but is not registered, and the tags `least-used` and
`split-by-percentage` are rejected. -/
theorem c6_dispatcher_three_tags :
    strategyFromString "round-robin" = some Strategy.roundRobin ∧
      strategyFromString "in-order" = some Strategy.inOrder ∧
      strategyFromString "split" = some Strategy.split ∧
      STRATEGIES Strategy.roundRobin = round_robin ∧
      STRATEGIES Strategy.inOrder = in_order_s ∧
      STRATEGIES Strategy.split = split_s ∧
      strategyFromString "least-used" = none ∧
      strategyFromString "split-by-percentage" = none := by
  refine ⟨rfl, rfl, rfl, rfl, rfl, rfl, rfl, rfl⟩

/-- C1: `get_remote_cache_url` updates `lowest_score` with the peer's
`load_score` instead of its combined score, so it can return a peer that does
not minimize `latency*0.2 + load_score*0.8`: with alive peers
`u1 (latency 100 ms, load 10)` and `u2 (latency 0 ms, load 20)` it returns
`u1` (score 28) although `u2` has the strictly smaller score 16. -/
theorem c1_remote_selection_divergence :
    get_remote_cache_url
        [RemotePeer.mk "u1" 100 10, RemotePeer.mk "u2" 0 20] = some "u1" ∧
      peerScore (RemotePeer.mk "u2" 0 20) < peerScore (RemotePeer.mk "u1" 100 10) := by
  constructor
  · norm_num [get_remote_cache_url, bestRemoteGo, ltOpt, peerScore,
      LATENCY_WEIGHT, LOAD_SCORE_WEIGHT]
  · norm_num [peerScore, LATENCY_WEIGHT, LOAD_SCORE_WEIGHT]

/-- C3 counterexample: on a private cache with token `tok`, a request with no
`Authorization` header is not answered 401 (the handler hits an
`AttributeError` on `None.split()`), and a request whose decoded credential is
`alice:tok` — whose token suffix equals the cache token — is answered 401. -/
theorem c3_auth_counterexample :
    authGate none "tok".toList = AuthResult.attrError ∧
      authGate (some "alice:tok".toList) "tok".toList = AuthResult.unauthorized := by
  constructor <;> rfl

/-- C3 amended: for a private cache whose token contains no colon, a request
with no `Authorization` header raises `AttributeError` instead of being
answered 401; a credential `user:t` with a wrong token `t` is answered 401; a
credential `user:token` with the correct token is also answered 401 whenever
the user part is non-empty, because the handler only drops the first character
of the decoded credential; only the credential `:token` (empty user part)
passes the gate. -/
theorem c3_auth_gate (token user t : List Char) (hcolon : ':' ∉ token) :
    authGate none token = AuthResult.attrError ∧
      (t ≠ token → authGate (some (user ++ ':' :: t)) token = AuthResult.unauthorized) ∧
      (user ≠ [] → authGate (some (user ++ ':' :: token)) token = AuthResult.unauthorized) ∧
      authGate (some (':' :: token)) token = AuthResult.proceed := by
  refine ⟨rfl, ?_, ?_, ?_⟩
  · intro ht
    cases user with
    | nil => simp [authGate, ht]
    | cons c us =>
      simp only [authGate, List.cons_append, List.drop_succ_cons, List.drop_zero]
      rw [if_pos]
      intro heq
      exact hcolon (heq ▸ (by simp))
  · intro hu
    cases user with
    | nil => exact absurd rfl hu
    | cons c us =>
      simp only [authGate, List.cons_append, List.drop_succ_cons, List.drop_zero]
      rw [if_pos]
      intro heq
      exact hcolon (heq ▸ (by simp))
  · simp [authGate]

/-- C3 witness: token `tok` has no colon, and the correct-token credential
`alice:tok` is nevertheless answered 401. -/
theorem c3_auth_gate_witness :
    (':' ∉ "tok".toList) ∧
      authGate (some ("alice".toList ++ ':' :: "tok".toList)) "tok".toList
        = AuthResult.unauthorized :=
  ⟨by decide, (c3_auth_gate "tok".toList "alice".toList "x".toList
    (by decide)).2.2.1 (by decide)⟩

/-- C10: on a non-empty list of back-ends whose total used space is zero, the
division `used / total_used` in `split` is unguarded and the call raises
`ZeroDivisionError` instead of returning a back-end, whatever the configured
split percentages. -/
theorem c10_split_zero_division (storages : List StorageB) (splits : List Int)
    (hne : storages ≠ []) (htot : total_used storages = 0) :
    split storages splits = Except.error PyErr.zeroDivisionError := by
  cases storages with
  | nil => exact absurd rfl hne
  | cons s rest => simp [split, splitGo, htot]

/-- C10 witness: two empty back-ends with split percentages `[70, 30]`. -/
theorem c10_split_zero_division_witness :
    ([StorageB.mk 0 false, StorageB.mk 0 false] ≠ []) ∧
      total_used [StorageB.mk 0 false, StorageB.mk 0 false] = 0 ∧
      split [StorageB.mk 0 false, StorageB.mk 0 false] [70, 30]
        = Except.error PyErr.zeroDivisionError :=
  ⟨by decide, by norm_num [total_used],
    c10_split_zero_division _ _ (by decide) (by norm_num [total_used])⟩

/-- C4: in the state where a fresh record A (`aaa`, xz) references the expired
record B (`bbb`) and the expired record C (`ccc`) is referenced by nothing, a
single `collect_garbage` pass works as the claim says when C's codec is xz:
A's and B's files and records are kept, and C's file and record are removed.
But when B's and C's artifacts use the zst codec, the pass tries to remove the
hard-coded name `ccc.nar.xz` instead of `ccc.nar.zst` and raises
`FileNotFoundError`, leaving C's file and record behind (retention 7 days,
`now = 1000000`; A is 100 s old, B and C are 700000 s old). -/
theorem c4_gc_codec_divergence :
    collect_garbage 7 1000000
        [GCStorage.mk "s1"
          [GCFile.mk "aaa.nar.xz".toList 999900,
           GCFile.mk "bbb.nar.zst".toList 300000,
           GCFile.mk "ccc.nar.zst".toList 300000]]
        [StorePathRec.mk "ha".toList "pa".toList "aaa".toList "hb-pb".toList "s1",
         StorePathRec.mk "hb".toList "pb".toList "bbb".toList [] "s1",
         StorePathRec.mk "hc".toList "pc".toList "ccc".toList [] "s1"]
      = Except.error PyErr.fileNotFoundError ∧
    collect_garbage 7 1000000
        [GCStorage.mk "s1"
          [GCFile.mk "aaa.nar.xz".toList 999900,
           GCFile.mk "bbb.nar.xz".toList 300000,
           GCFile.mk "ccc.nar.xz".toList 300000]]
        [StorePathRec.mk "ha".toList "pa".toList "aaa".toList "hb-pb".toList "s1",
         StorePathRec.mk "hb".toList "pb".toList "bbb".toList [] "s1",
         StorePathRec.mk "hc".toList "pc".toList "ccc".toList [] "s1"]
      = Except.ok
          ([GCStorage.mk "s1"
            [GCFile.mk "aaa.nar.xz".toList 999900,
             GCFile.mk "bbb.nar.xz".toList 300000]],
           [StorePathRec.mk "ha".toList "pa".toList "aaa".toList "hb-pb".toList "s1",
            StorePathRec.mk "hb".toList "pb".toList "bbb".toList [] "s1"]) := by
  constructor <;> rfl

/-- `Storage.find` misses when no file contains the needle. -/
theorem storageFind_eq_none (n : List Char) (files : List (List Char))
    (h : ∀ f ∈ files, isSubOf n f = false) : storageFind n files = none := by
  induction files with
  | nil => rfl
  | cons f rest ih =>
    simp only [storageFind, h f (List.mem_cons_self f rest)]
    exact ih (fun g hg => h g (List.mem_cons_of_mem f hg))

/-- `StorageManager.find` misses when no back-end file contains the needle. -/
theorem managerFind_eq_none (n : List Char) (ss : List UploadStorage)
    (h : ∀ s ∈ ss, ∀ f ∈ s.files, isSubOf n f = false) :
    managerFind n ss = none := by
  induction ss with
  | nil => rfl
  | cons s rest ih =>
    simp only [managerFind,
      storageFind_eq_none n s.files (h s (List.mem_cons_self s rest))]
    exact ih (fun t ht => h t (List.mem_cons_of_mem s ht))

/-- C7: once `complete` has succeeded on an upload id `u` (the reserved file —
the only file containing `u` — was renamed to `<file_hash>.nar.<codec>`, which
does not contain `u`), every later `complete` or `abort` request for `u` is
answered 400 and leaves the state unchanged; and for an id with no reserved
file on any back-end, `complete` and `abort` are answered 400, remove no file
and write no record. -/
theorem c7_upload_idempotence (st : ServerState) (u fn : List Char)
    (stg : UploadStorage) (nc nc' : NarInfoCreate)
    (hfind : managerFind u st.storages = some (fn, stg))
    (honly : ∀ s ∈ st.storages, ∀ f ∈ s.files,
      isSubOf u f = true → s.id = stg.id ∧ f = fn)
    (hnew : isSubOf u (nc.cFileHash ++ ".nar".toList ++ splitextExt fn) = false) :
    (completeUpload st u nc).1 = 200 ∧
      completeUpload (completeUpload st u nc).2 u nc'
        = (400, (completeUpload st u nc).2) ∧
      abortUpload (completeUpload st u nc).2 u
        = (400, (completeUpload st u nc).2) ∧
      (∀ st' : ServerState, managerFind u st'.storages = none →
        completeUpload st' u nc' = (400, st') ∧ abortUpload st' u = (400, st')) := by
  have hcomp : completeUpload st u nc =
      (200,
        { storages := renameInStorages st.storages stg.id fn
            (nc.cFileHash ++ ".nar".toList ++ splitextExt fn)
          records := st.records ++
            [{ storeHash := nc.cStoreHash
               storeSuffix := nc.cStoreSuffix
               fileHash := nc.cFileHash
               refs := joinSep [' '] nc.cReferences
               storageId := stg.id }] }) := by
    simp [completeUpload, hfind]
  have hnone : managerFind u (completeUpload st u nc).2.storages = none := by
    apply managerFind_eq_none
    rw [hcomp]
    intro s hs f hf
    simp only [renameInStorages, List.mem_map] at hs
    obtain ⟨s₀, hs₀, hmap⟩ := hs
    by_cases hid : s₀.id = stg.id
    · rw [if_pos hid] at hmap
      subst hmap
      simp only [List.mem_map] at hf
      obtain ⟨f₀, hf₀, hfeq⟩ := hf
      by_cases hfn : f₀ = fn
      · rw [hfn] at hfeq
        simp only [if_pos rfl] at hfeq
        rw [← hfeq]
        exact hnew
      · simp only [if_neg hfn] at hfeq
        subst hfeq
        cases hval : isSubOf u f₀ with
        | false => rfl
        | true => exact absurd ((honly s₀ hs₀ f₀ hf₀ hval).2) hfn
    · rw [if_neg hid] at hmap
      subst hmap
      cases hval : isSubOf u f with
      | false => rfl
      | true => exact absurd ((honly s₀ hs₀ f hf hval).1) hid
  rw [hcomp] at hnone
  simp at hnone
  refine ⟨by rw [hcomp], ?_, ?_, ?_⟩
  · rw [hcomp]
    simp [completeUpload, hnone]
  · rw [hcomp]
    simp [abortUpload, hnone]
  · intro st' h
    exact ⟨by simp [completeUpload, h], by simp [abortUpload, h]⟩

/-- C7 witness: a one-back-end state whose reserved file `abcd.nar.xz` is the
only file containing the upload id `abcd`; the renamed name `ff.nar.xz` does
not contain it. -/
theorem c7_upload_idempotence_witness :
    (completeUpload
        (ServerState.mk
          [UploadStorage.mk "s1" ["abcd.nar.xz".toList, "other.nar.zst".toList]] [])
        "abcd".toList
        (NarInfoCreate.mk "ha".toList "pa".toList "ff".toList [])).1 = 200 ∧
      completeUpload
          (completeUpload
            (ServerState.mk
              [UploadStorage.mk "s1" ["abcd.nar.xz".toList, "other.nar.zst".toList]] [])
            "abcd".toList
            (NarInfoCreate.mk "ha".toList "pa".toList "ff".toList [])).2
          "abcd".toList
          (NarInfoCreate.mk "hb".toList "pb".toList "gg".toList [])
        = (400,
            (completeUpload
              (ServerState.mk
                [UploadStorage.mk "s1" ["abcd.nar.xz".toList, "other.nar.zst".toList]] [])
              "abcd".toList
              (NarInfoCreate.mk "ha".toList "pa".toList "ff".toList [])).2) ∧
      abortUpload
          (completeUpload
            (ServerState.mk
              [UploadStorage.mk "s1" ["abcd.nar.xz".toList, "other.nar.zst".toList]] [])
            "abcd".toList
            (NarInfoCreate.mk "ha".toList "pa".toList "ff".toList [])).2
          "abcd".toList
        = (400,
            (completeUpload
              (ServerState.mk
                [UploadStorage.mk "s1" ["abcd.nar.xz".toList, "other.nar.zst".toList]] [])
              "abcd".toList
              (NarInfoCreate.mk "ha".toList "pa".toList "ff".toList [])).2) ∧
      (∀ st' : ServerState, managerFind "abcd".toList st'.storages = none →
        completeUpload st' "abcd".toList
            (NarInfoCreate.mk "hb".toList "pb".toList "gg".toList []) = (400, st') ∧
          abortUpload st' "abcd".toList = (400, st')) :=
  c7_upload_idempotence
    (ServerState.mk
      [UploadStorage.mk "s1" ["abcd.nar.xz".toList, "other.nar.zst".toList]] [])
    "abcd".toList "abcd.nar.xz".toList
    (UploadStorage.mk "s1" ["abcd.nar.xz".toList, "other.nar.zst".toList])
    (NarInfoCreate.mk "ha".toList "pa".toList "ff".toList [])
    (NarInfoCreate.mk "hb".toList "pb".toList "gg".toList [])
    (by decide) (by decide) (by decide)

/-- `deltaList` distributes over cons. -/
theorem deltaList_cons (s : StorageB) (rest : List StorageB) (p : Int)
    (ps : List Int) (total : ℚ) :
    deltaList (s :: rest) (p :: ps) total
      = ((p : ℚ) - s.used / total * 100) :: deltaList rest ps total := rfl

/-- A list of non-positive rationals has non-positive sum. -/
theorem list_sum_nonpos {l : List ℚ} (h : ∀ x ∈ l, x ≤ 0) : l.sum ≤ 0 := by
  induction l with
  | nil => simp
  | cons x xs ih =>
    have hx := h x (List.mem_cons_self x xs)
    have hxs := ih (fun y hy => h y (List.mem_cons_of_mem x hy))
    simp only [List.sum_cons]
    linarith

/-- Non-positive rationals summing to zero are all zero. -/
theorem list_all_nonpos_sum_zero {l : List ℚ} (h : ∀ x ∈ l, x ≤ 0)
    (hs : l.sum = 0) : ∀ x ∈ l, x = 0 := by
  induction l with
  | nil => simp
  | cons x xs ih =>
    have hx := h x (List.mem_cons_self x xs)
    have hxs := list_sum_nonpos (fun y hy => h y (List.mem_cons_of_mem x hy))
    have hsum : x + xs.sum = 0 := by simpa using hs
    intro y hy
    rcases List.mem_cons.mp hy with h1 | h2
    · rw [h1]; linarith
    · exact ih (fun z hz => h z (List.mem_cons_of_mem x hz)) (by linarith) y h2

/-- The sum of the deficits that `split` computes. -/
theorem deltaList_sum (storages : List StorageB) (splits : List Int) (total : ℚ)
    (hlen : storages.length = splits.length) :
    (deltaList storages splits total).sum =
      (List.map (fun p : Int => (p : ℚ)) splits).sum
        - total_used storages / total * 100 := by
  induction storages generalizing splits with
  | nil =>
    cases splits with
    | nil => simp [deltaList, total_used]
    | cons p ps => simp at hlen
  | cons s rest ih =>
    cases splits with
    | nil => simp at hlen
    | cons p ps =>
      have ih' := ih ps (by simpa using hlen)
      rw [deltaList_cons, List.sum_cons, ih', List.map_cons, List.sum_cons]
      have : total_used (s :: rest) = s.used + total_used rest := by
        simp [total_used]
      rw [this]
      ring

/-- The loop invariant of `split`: on a non-degenerate input the loop returns
the running maximum `least'` of `0` and the deficits, together with an index
that attains it whenever it improved on the initial value. -/
theorem splitGo_spec (total : ℚ) (htot : total ≠ 0) :
    ∀ (storages : List StorageB) (splits : List Int) (least : ℚ) (idx pos : Nat),
      storages.length ≤ splits.length →
      ∃ least' idx',
        splitGo total storages splits least idx pos = Except.ok (least', idx') ∧
        least ≤ least' ∧
        (∀ d ∈ deltaList storages splits total, d ≤ least') ∧
        ((least' = least ∧ idx' = idx) ∨
          ∃ k, (deltaList storages splits total).get? k = some least' ∧
            idx' = pos + k ∧ least < least') := by
  intro storages
  induction storages with
  | nil =>
    intro splits least idx pos _
    exact ⟨least, idx, rfl, le_refl least, by simp [deltaList], Or.inl ⟨rfl, rfl⟩⟩
  | cons s rest ih =>
    intro splits least idx pos hlen
    cases splits with
    | nil => simp at hlen
    | cons p ps =>
      have hlen' : rest.length ≤ ps.length := by simpa using hlen
      by_cases hlt : least < ((p : ℚ) - s.used / total * 100)
      · obtain ⟨L, I, heq, hle, hbound, hdisj⟩ :=
          ih ps ((p : ℚ) - s.used / total * 100) pos (pos + 1) hlen'

        refine ⟨L, I, ?_, le_of_lt (lt_of_lt_of_le hlt hle), ?_, ?_⟩
        · simp only [splitGo, if_neg htot, if_pos hlt]
          exact heq
        · intro d hd
          rw [deltaList_cons] at hd
          rcases List.mem_cons.mp hd with h1 | h2
          · rw [h1]; exact hle
          · exact hbound d h2
        · right
          rcases hdisj with ⟨hL, hI⟩ | ⟨k, hget, hI, hlt'⟩
          · refine ⟨0, ?_, by omega, by rw [hL]; exact hlt⟩
            rw [deltaList_cons, hL]
            rfl
          · refine ⟨k + 1, ?_, by omega, lt_trans hlt hlt'⟩
            rw [deltaList_cons, List.get?_cons_succ]
            exact hget
      · obtain ⟨L, I, heq, hle, hbound, hdisj⟩ := ih ps least idx (pos + 1) hlen'
        push_neg at hlt
        refine ⟨L, I, ?_, hle, ?_, ?_⟩
        · simp only [splitGo, if_neg htot, if_neg (not_lt.mpr hlt)]
          exact heq
        · intro d hd
          rw [deltaList_cons] at hd
          rcases List.mem_cons.mp hd with h1 | h2
          · rw [h1]; exact le_trans hlt hle
          · exact hbound d h2
        · rcases hdisj with h | ⟨k, hget, hI, hlt'⟩
          · exact Or.inl h
          · refine Or.inr ⟨k + 1, ?_, by omega, hlt'⟩
            rw [deltaList_cons, List.get?_cons_succ]
            exact hget

/-- C5: on a non-empty back-end list with configured split percentages (one
integer percentage per back-end, summing to 100, as the config validator
requires) and non-zero total used space, `split` returns a back-end whose
deficit `p_i − used_i/Σused·100` is maximal over all back-ends — unless that
back-end is full, in which case it returns the result of the in-order
strategy. -/
theorem c5_split_max_deficit (storages : List StorageB) (splits : List Int)
    (hne : storages ≠ []) (hlen : storages.length = splits.length)
    (hsum : splits.sum = 100) (htot : total_used storages ≠ 0) :
    ∃ i s di,
      storages.get? i = some s ∧
      (deltaList storages splits (total_used storages)).get? i = some di ∧
      (∀ d ∈ deltaList storages splits (total_used storages), d ≤ di) ∧
      split storages splits = if s.full then in_order storages else Except.ok i := by
  obtain ⟨L, I, heq, _, hbound, hdisj⟩ :=
    splitGo_spec (total_used storages) htot storages splits 0 0 0 (le_of_eq hlen)
  have hdlen : (deltaList storages splits (total_used storages)).length
      = storages.length := by
    simp only [deltaList]
    rw [List.length_zipWith, hlen, min_self]
  rcases hdisj with ⟨hL, hI⟩ | ⟨k, hget, hI, _⟩
  · have hsz : (deltaList storages splits (total_used storages)).sum = 0 := by
      rw [deltaList_sum storages splits _ hlen, ← Int.cast_list_sum, hsum,
        div_self htot]
      norm_num
    have hzero := list_all_nonpos_sum_zero
      (fun d hd => by { have := hbound d hd; rw [hL] at this; exact this }) hsz
    have h0 : 0 < storages.length := List.length_pos.mpr hne
    obtain ⟨s0, hs0⟩ : ∃ s0, storages.get? 0 = some s0 :=
      ⟨_, List.get?_eq_get h0⟩
    have h0d : 0 < (deltaList storages splits (total_used storages)).length := by
      rw [hdlen]; exact h0
    obtain ⟨d0, hd0⟩ :
        ∃ d0, (deltaList storages splits (total_used storages)).get? 0 = some d0 :=
      ⟨_, List.get?_eq_get h0d⟩
    have hd00 : d0 = 0 := hzero d0 (List.get?_mem hd0)
    refine ⟨0, s0, d0, hs0, hd0, ?_, ?_⟩
    · intro d hd
      rw [hd00, ← hL]
      exact hbound d hd
    · simp only [split, heq, hI, hs0]
  · have hk : k < storages.length := by
      rw [← hdlen]
      exact (List.get?_eq_some.mp hget).1
    obtain ⟨sI, hsI⟩ : ∃ sI, storages.get? k = some sI :=
      ⟨_, List.get?_eq_get hk⟩
    have hIk : I = k := by omega
    refine ⟨k, sI, L, hsI, hget, hbound, ?_⟩
    simp only [split, heq, hIk, hsI]

/-- C5 witness: back-ends with used spaces 30 and 70 and split percentages
`[70, 30]`. -/
theorem c5_split_max_deficit_witness :
    ([StorageB.mk 30 false, StorageB.mk 70 false] ≠ []) ∧
      ([(70 : Int), 30].sum = 100) ∧
      total_used [StorageB.mk 30 false, StorageB.mk 70 false] ≠ 0 ∧
      ∃ i s di,
        [StorageB.mk 30 false, StorageB.mk 70 false].get? i = some s ∧
        (deltaList [StorageB.mk 30 false, StorageB.mk 70 false] [70, 30]
          (total_used [StorageB.mk 30 false, StorageB.mk 70 false])).get? i
            = some di ∧
        (∀ d ∈ deltaList [StorageB.mk 30 false, StorageB.mk 70 false] [70, 30]
          (total_used [StorageB.mk 30 false, StorageB.mk 70 false]), d ≤ di) ∧
        split [StorageB.mk 30 false, StorageB.mk 70 false] [70, 30]
          = if s.full then in_order [StorageB.mk 30 false, StorageB.mk 70 false]
            else Except.ok i :=
  ⟨by decide, by decide, by norm_num [total_used],
    c5_split_max_deficit [StorageB.mk 30 false, StorageB.mk 70 false] [70, 30]
      (by decide) (by decide) (by decide) (by norm_num [total_used])⟩

/-! ### String-processing lemmas for the narinfo round trip -/

/-- `joinLines` distributes over cons. -/
theorem joinLines_cons (l : List Char) (ls : List (List Char)) :
    joinLines (l :: ls) = l ++ '\n' :: joinLines ls := rfl

/-- `joinLines` is `joinSep` plus a trailing newline. -/
theorem joinLines_eq_joinSep (ls : List (List Char)) (h : ls ≠ []) :
    joinLines ls = joinSep ['\n'] ls ++ ['\n'] := by
  induction ls with
  | nil => exact absurd rfl h
  | cons x rest ih =>
    cases rest with
    | nil => rfl
    | cons y r =>
      rw [joinLines_cons, ih (by simp)]
      simp [joinSep, List.append_assoc]

/-- Splitting a separator-free string yields the one-piece list. -/
theorem splitOnChar_of_not_mem (c : Char) (s : List Char) (h : c ∉ s) :
    splitOnChar c s = [s] := by
  induction s with
  | nil => rfl
  | cons x xs ih =>
    have hx : x ≠ c := fun e => h (e ▸ List.mem_cons_self x xs)
    rw [splitOnChar, if_neg hx, ih (fun hm => h (List.mem_cons_of_mem x hm))]

/-- Splitting a string beginning with a separator-free piece. -/
theorem splitOnChar_append (c : Char) (x r : List Char) (h : c ∉ x) :
    splitOnChar c (x ++ c :: r) = x :: splitOnChar c r := by
  induction x with
  | nil => simp [splitOnChar]
  | cons a as ih =>
    have ha : a ≠ c := fun e => h (e ▸ List.mem_cons_self a as)
    rw [List.cons_append, splitOnChar, if_neg ha,
      ih (fun hm => h (List.mem_cons_of_mem a hm))]

/-- Splitting inverts joining for separator-free pieces. -/
theorem splitOnChar_joinSep (c : Char) (ls : List (List Char)) (hne : ls ≠ [])
    (h : ∀ l ∈ ls, c ∉ l) : splitOnChar c (joinSep [c] ls) = ls := by
  induction ls with
  | nil => exact absurd rfl hne
  | cons x rest ih =>
    cases rest with
    | nil => exact splitOnChar_of_not_mem c x (h x (List.mem_cons_self x []))
    | cons y r =>
      have hj : joinSep [c] (x :: y :: r) = x ++ c :: joinSep [c] (y :: r) := by
        simp [joinSep]
      rw [hj, splitOnChar_append c x _ (h x (List.mem_cons_self x (y :: r))),
        ih (by simp) (fun l hl => h l (List.mem_cons_of_mem x hl))]

/-- A joined list whose first piece starts with `ch` starts with `ch`. -/
theorem joinSep_head_cons (sep : List Char) (ch : Char) (x : List Char)
    (rest : List (List Char)) :
    ∃ T, joinSep sep ((ch :: x) :: rest) = ch :: T := by
  cases rest with
  | nil => exact ⟨x, rfl⟩
  | cons y r => exact ⟨x ++ sep ++ joinSep sep (y :: r), by simp [joinSep]⟩

/-- The last character of a joined list is the last character of its last
piece, provided that piece is non-empty. -/
theorem joinSep_getLast? (sep : List Char) (ls : List (List Char))
    (lst : List Char) (hl : ls.getLast? = some lst) (hlst : lst ≠ []) :
    (joinSep sep ls).getLast? = lst.getLast? := by
  induction ls with
  | nil => simp at hl
  | cons x rest ih =>
    cases rest with
    | nil =>
      have hx : x = lst := by simpa using hl
      rw [hx]
      rfl
    | cons y r =>
      have hl' : (y :: r).getLast? = some lst := by simpa using hl
      have ihr := ih hl'
      have hjr : joinSep sep (y :: r) ≠ [] := by
        intro hemp
        rw [hemp] at ihr
        have : lst.getLast?.isSome := List.getLast?_isSome.mpr hlst
        rw [← ihr] at this
        simp at this
      have hj : joinSep sep (x :: y :: r) = (x ++ sep) ++ joinSep sep (y :: r) := by
        simp [joinSep, List.append_assoc]
      rw [hj, List.getLast?_append_of_ne_nil _ hjr]
      exact ihr

/-- Stripping a text of the form `c :: M ++ ['\n']` with non-space first and
last (pre-newline) characters removes exactly the trailing newline. -/
theorem pyStrip_wrap (c : Char) (M : List Char) (d : Char)
    (hc : isPySpace c = false) (hd : (c :: M).getLast? = some d)
    (hds : isPySpace d = false) :
    pyStrip ((c :: M) ++ ['\n']) = c :: M := by
  unfold pyStrip
  have h1 : ((c :: M) ++ ['\n']).dropWhile isPySpace = (c :: M) ++ ['\n'] := by
    rw [List.cons_append, List.dropWhile_cons, hc]
    simp
  rw [h1, List.reverse_append]
  have h2 : ([('\n' : Char)]).reverse = ['\n'] := rfl
  rw [h2]
  have h3 : isPySpace '\n' = true := rfl
  rw [List.cons_append, List.nil_append, List.dropWhile_cons, h3]
  simp only [if_true]
  have hrev : (c :: M).reverse.head? = some d := by
    rw [List.head?_reverse]
    exact hd
  cases hr : (c :: M).reverse with
  | nil => simp [hr] at hrev
  | cons e es =>
    rw [hr] at hrev
    have he : isPySpace e = false := by
      have : e = d := by simpa using hrev
      rw [this]
      exact hds
    rw [List.dropWhile_cons, he]
    simp only [Bool.false_eq_true, if_false]
    rw [← hr, List.reverse_reverse]

/-- Stripping and splitting a rendered text recovers its lines, provided the
first line starts with a non-space character, the last line ends with a
non-space character, and no line contains a newline. -/
theorem pySplitlines_joinLines (ls : List (List Char)) (ch : Char)
    (x : List Char) (rest : List (List Char)) (hshape : ls = (ch :: x) :: rest)
    (hch : isPySpace ch = false) (lst : List Char)
    (hlast : ls.getLast? = some lst) (d : Char)
    (hlstd : lst.getLast? = some d) (hd : isPySpace d = false)
    (hnl : ∀ l ∈ ls, '\n' ∉ l) :
    pySplitlines (pyStrip (joinLines ls)) = ls := by
  subst hshape
  obtain ⟨T, hT⟩ := joinSep_head_cons ['\n'] ch x rest
  have hlstne : lst ≠ [] := by
    intro h
    rw [h] at hlstd
    simp at hlstd
  have hjl : (joinSep ['\n'] ((ch :: x) :: rest)).getLast? = some d := by
    rw [joinSep_getLast? _ _ lst hlast hlstne]
    exact hlstd
  rw [joinLines_eq_joinSep _ (by simp), hT]
  rw [pyStrip_wrap ch T d hch (hT ▸ hjl) hd]
  rw [← hT]
  have hd' : d ≠ '\n' := by
    intro h
    rw [h] at hd
    simp [isPySpace] at hd
  have hne : (joinSep ['\n'] ((ch :: x) :: rest)).isEmpty = false := by
    rw [hT]
    rfl
  unfold pySplitlines
  simp only [hne, Bool.false_eq_true, if_false]
  rw [if_neg (by rw [hjl]; simp [hd'])]
  exact splitOnChar_joinSep '\n' _ (by simp) hnl

/-- Python's `line.split(": ", 1)` splits a `key: value` line at the key
boundary when the key contains no colon. -/
theorem splitOnceAt_colonSpace (K V : List Char) (hK : ':' ∉ K) :
    splitOnceAt ": ".toList (K ++ ": ".toList ++ V) = some (K, V) := by
  induction K with
  | nil => rfl
  | cons k ks ih =>
    have hk : (':' == k) = false := by
      simp only [beq_eq_false_iff_ne, ne_eq]
      intro h
      apply hK
      rw [h]
      exact List.mem_cons_self k ks
    have hpre : strStarts ": ".toList (k :: (ks ++ ": ".toList ++ V)) = false := by
      show ((':' == k) && _) = false
      rw [hk]
      rfl
    rw [List.cons_append]
    simp only [splitOnceAt, List.append_eq, hpre, Bool.false_eq_true, if_false]
    rw [ih (fun hm => hK (List.mem_cons_of_mem k hm))]
    rfl

/-- Parsing a scalar `key: value` line stores the pair. -/
theorem parseLine_scalar (d : NarDict) (K V : List Char) (hKne : K ≠ [])
    (hK : ':' ∉ K)
    (hS : strStarts "Sig:".toList (mkLine K V) = false)
    (hR : strStarts "References:".toList (mkLine K V) = false) :
    parseNarinfoLine d (mkLine K V) = Except.ok (dictSet d K (NarVal.str V)) := by
  have hne : (mkLine K V).isEmpty = false := by
    cases K with
    | nil => exact absurd rfl hKne
    | cons a as => rfl
  unfold parseNarinfoLine
  simp only [hne, Bool.false_eq_true, if_false, hS, hR]
  rw [show mkLine K V = K ++ ": ".toList ++ V from rfl,
    splitOnceAt_colonSpace K V hK]

/-- Parsing a `Sig:` line skips it. -/
theorem parseLine_sigLine (d : NarDict) (V : List Char) :
    parseNarinfoLine d (mkLine "Sig".toList V) = Except.ok d := rfl

/-- Parsing the `References:` line of a canonical narinfo recovers the
reference list, provided it is non-empty and its tokens are non-empty and
space-free. -/
theorem parseLine_references (d : NarDict) (refs : List (List Char))
    (hrefs : refs ≠ []) (htok : ∀ r ∈ refs, r ≠ [] ∧ ' ' ∉ r) :
    parseNarinfoLine d (mkLine "References".toList (joinSep [' '] refs))
      = Except.ok (dictSet d "References".toList (NarVal.list refs)) := by
  obtain ⟨r0, rs, hr0⟩ : ∃ r0 rs, refs = r0 :: rs := by
    cases refs with
    | nil => exact absurd rfl hrefs
    | cons a b => exact ⟨a, b, rfl⟩
  obtain ⟨c, cs, hc0⟩ : ∃ c cs, r0 = c :: cs := by
    cases hx : r0 with
    | nil => exact absurd hx ((htok r0 (hr0 ▸ List.mem_cons_self r0 rs)).1)
    | cons a b => exact ⟨a, b, rfl⟩
  obtain ⟨T, hT⟩ := joinSep_head_cons [' '] c cs rs
  have hcs : c ≠ ' ' := by
    intro h
    exact (htok r0 (hr0 ▸ List.mem_cons_self r0 rs)).2
      (hc0 ▸ (h ▸ List.mem_cons_self c cs))
  have hJ : joinSep [' '] refs = c :: T := by rw [hr0, hc0]; exact hT
  have hJne : joinSep [' '] refs ≠ [] := by rw [hJ]; simp
  have hJs : joinSep [' '] refs ≠ [' '] := by
    rw [hJ]
    intro h
    simp only [List.cons.injEq] at h
    exact hcs h.1
  unfold parseNarinfoLine
  have hne : (mkLine "References".toList (joinSep [' '] refs)).isEmpty = false := rfl
  have hS : strStarts "Sig:".toList
      (mkLine "References".toList (joinSep [' '] refs)) = false := rfl
  have hR : strStarts "References:".toList
      (mkLine "References".toList (joinSep [' '] refs)) = true := rfl
  simp only [hne, Bool.false_eq_true, if_false, hS, hR, if_true]
  rw [show mkLine "References".toList (joinSep [' '] refs)
      = "References".toList ++ ": ".toList ++ joinSep [' '] refs from rfl,
    splitOnceAt_colonSpace _ _ (by decide)]
  simp only [Option.some.injEq]
  rw [if_pos ⟨hJne, hJs⟩,
    splitOnChar_joinSep ' ' refs hrefs (fun l hl => (htok l hl).2)]

/-- A character avoiding a key, the separator and the value avoids the line. -/
theorem not_mem_mkLine (ch : Char) (K V : List Char) (hK : ch ∉ K)
    (hsep : ch ∉ ": ".toList) (hV : ch ∉ V) : ch ∉ mkLine K V := by
  intro h
  rcases List.mem_append.mp h with h' | h'
  · rcases List.mem_append.mp h' with h'' | h''
    · exact hK h''
    · exact hsep h''
  · exact hV h'

/-- A character avoiding the separator and every piece avoids the join. -/
theorem not_mem_joinSep (ch : Char) (sep : List Char) (ls : List (List Char))
    (hsep : ch ∉ sep) (h : ∀ l ∈ ls, ch ∉ l) : ch ∉ joinSep sep ls := by
  induction ls with
  | nil => simp [joinSep]
  | cons x rest ih =>
    cases rest with
    | nil => exact h x (List.mem_cons_self x [])
    | cons y r =>
      intro hm
      have hj : joinSep sep (x :: y :: r) = (x ++ sep) ++ joinSep sep (y :: r) := by
        simp [joinSep, List.append_assoc]
      rw [hj] at hm
      rcases List.mem_append.mp hm with h' | h'
      · rcases List.mem_append.mp h' with h'' | h''
        · exact h x (List.mem_cons_self x (y :: r)) h''
        · exact hsep h''
      · exact ih (fun l hl => h l (List.mem_cons_of_mem x hl)) h'

/-- One successful step of the parse-line loop. -/
theorem parseNarinfoLines_cons_ok (d d' : NarDict) (line : List Char)
    (rest : List (List Char)) (h : parseNarinfoLine d line = Except.ok d') :
    parseNarinfoLines d (line :: rest) = parseNarinfoLines d' rest := by
  simp only [parseNarinfoLines, h]

/-- Stripping and splitting a canonical narinfo text recovers its lines. -/
theorem render_lines_roundtrip (f : NarInfoFields) (oldSig : List Char)
    (hf : goodFields f) (hs : goodSig oldSig) :
    pySplitlines (pyStrip (renderNarinfo f (some oldSig)))
      = narLines f (some oldSig) := by
  obtain ⟨h1, h2, h3, h4, h5, h6, h7, h8, h9, hrefs, htok⟩ := hf
  obtain ⟨hsne, hsw⟩ := hs
  obtain ⟨d, hgld⟩ : ∃ d, oldSig.getLast? = some d := by
    have hsome := List.getLast?_isSome.mpr hsne
    cases hx : oldSig.getLast? with
    | none => rw [hx] at hsome; simp at hsome
    | some d => exact ⟨d, rfl⟩
  have hdmem : d ∈ oldSig := by
    obtain ⟨h', he⟩ :=
      List.mem_getLast?_eq_getLast (l := oldSig) (x := d) (by rw [hgld]; rfl)
    rw [he]
    exact List.getLast_mem h'
  have hdns : isPySpace d = false := hsw d hdmem
  have hlstd : (mkLine "Sig".toList oldSig).getLast? = some d := by
    show (("Sig".toList ++ ": ".toList) ++ oldSig).getLast? = some d
    rw [List.getLast?_append_of_ne_nil _ hsne]
    exact hgld
  have hnl : ∀ l ∈ narLines f (some oldSig), '\n' ∉ l := by
    intro l hl
    simp only [narLines, List.cons_append, List.nil_append, List.mem_cons,
      List.not_mem_nil, or_false] at hl
    rcases hl with rfl | rfl | rfl | rfl | rfl | rfl | rfl | rfl | rfl | rfl | rfl
    · exact not_mem_mkLine _ _ _ (by decide) (by decide) h1.2.1
    · exact not_mem_mkLine _ _ _ (by decide) (by decide) h2.2.1
    · exact not_mem_mkLine _ _ _ (by decide) (by decide) h3.2.1
    · exact not_mem_mkLine _ _ _ (by decide) (by decide) h4.2.1
    · exact not_mem_mkLine _ _ _ (by decide) (by decide) h5.2.1
    · exact not_mem_mkLine _ _ _ (by decide) (by decide) h6.2.1
    · exact not_mem_mkLine _ _ _ (by decide) (by decide) h7.2.1
    · exact not_mem_mkLine _ _ _ (by decide) (by decide) h8.2.1
    · exact not_mem_mkLine _ _ _ (by decide) (by decide) h9.2.1
    · exact not_mem_mkLine _ _ _ (by decide) (by decide)
        (not_mem_joinSep _ _ _ (by decide) (fun r hr => (htok r hr).1.2.1))
    · exact not_mem_mkLine _ _ _ (by decide) (by decide)
        (fun hmem => by have := hsw '\n' hmem; simp [isPySpace] at this)
  exact pySplitlines_joinLines (narLines f (some oldSig)) 'S' _ _ rfl rfl
    (mkLine "Sig".toList oldSig) rfl d hlstd hdns hnl

/-- Parsing the lines of a canonical narinfo builds exactly the standard
dictionary. -/
theorem parse_lines_canonical (f : NarInfoFields) (oldSig : List Char)
    (hrefs : f.references ≠ [])
    (htok : ∀ r ∈ f.references, r ≠ [] ∧ ' ' ∉ r) :
    parseNarinfoLines [] (narLines f (some oldSig)) = Except.ok (stdDict f) := by
  show parseNarinfoLines []
    (mkLine "StorePath".toList f.storePath ::
      mkLine "URL".toList f.url ::
      mkLine "Compression".toList f.compression ::
      mkLine "FileHash".toList f.fileHash ::
      mkLine "FileSize".toList f.fileSize ::
      mkLine "NarHash".toList f.narHash ::
      mkLine "NarSize".toList f.narSize ::
      mkLine "Deriver".toList f.deriver ::
      mkLine "System".toList f.system ::
      mkLine "References".toList (joinSep [' '] f.references) ::
      [mkLine "Sig".toList oldSig]) = Except.ok (stdDict f)
  rw [parseNarinfoLines_cons_ok _ _ _ _
    (parseLine_scalar _ "StorePath".toList f.storePath (by decide) (by decide) rfl rfl)]
  rw [parseNarinfoLines_cons_ok _ _ _ _
    (parseLine_scalar _ "URL".toList f.url (by decide) (by decide) rfl rfl)]
  rw [parseNarinfoLines_cons_ok _ _ _ _
    (parseLine_scalar _ "Compression".toList f.compression (by decide) (by decide) rfl rfl)]
  rw [parseNarinfoLines_cons_ok _ _ _ _
    (parseLine_scalar _ "FileHash".toList f.fileHash (by decide) (by decide) rfl rfl)]
  rw [parseNarinfoLines_cons_ok _ _ _ _
    (parseLine_scalar _ "FileSize".toList f.fileSize (by decide) (by decide) rfl rfl)]
  rw [parseNarinfoLines_cons_ok _ _ _ _
    (parseLine_scalar _ "NarHash".toList f.narHash (by decide) (by decide) rfl rfl)]
  rw [parseNarinfoLines_cons_ok _ _ _ _
    (parseLine_scalar _ "NarSize".toList f.narSize (by decide) (by decide) rfl rfl)]
  rw [parseNarinfoLines_cons_ok _ _ _ _
    (parseLine_scalar _ "Deriver".toList f.deriver (by decide) (by decide) rfl rfl)]
  rw [parseNarinfoLines_cons_ok _ _ _ _
    (parseLine_scalar _ "System".toList f.system (by decide) (by decide) rfl rfl)]
  rw [parseNarinfoLines_cons_ok _ _ _ _
    (parseLine_references _ _ hrefs htok)]
  rw [parseNarinfoLines_cons_ok _ _ _ _ (parseLine_sigLine _ _)]
  rfl

/-- The final all-fields-truthy check passes on the standard dictionary of a
narinfo with non-empty fields. -/
theorem allCheck_stdDict (f : NarInfoFields)
    (h1 : f.storePath ≠ []) (h2 : f.url ≠ []) (h3 : f.compression ≠ [])
    (h4 : f.fileHash ≠ []) (h5 : f.fileSize ≠ []) (h6 : f.narHash ≠ [])
    (h7 : f.narSize ≠ []) (h8 : f.deriver ≠ []) (h9 : f.system ≠ [])
    (hrefs : f.references ≠ []) :
    narinfoAllCheck (stdDict f) (stdDict f) = Except.ok true := by
  simp only [stdDict, narinfoAllCheck, pyTruthy]
  simp [h1, h2, h3, h4, h5, h6, h7, h8, h9, hrefs]

/-- `BinaryCache.sign` on a canonical narinfo text: the standard dictionary
with the fresh `Sig` entry appended. -/
theorem sign_canonical (sigOf : List Char → List Char) (keyName : List Char)
    (f : NarInfoFields) (oldSig : List Char) (hf : goodFields f)
    (hs : goodSig oldSig) :
    narinfoSign sigOf keyName (renderNarinfo f (some oldSig))
      = Except.ok (stdDict f ++ [("Sig".toList, NarVal.str (keyName ++ ':' ::
          sigOf (fingerprintBytes f.references f.storePath f.narHash
            f.narSize)))]) := by
  have hrt := render_lines_roundtrip f oldSig hf hs
  obtain ⟨h1, h2, h3, h4, h5, h6, h7, h8, h9, hrefs, htok⟩ := hf
  have htok' : ∀ r ∈ f.references, r ≠ [] ∧ ' ' ∉ r :=
    fun r hr => ⟨(htok r hr).1.1, (htok r hr).2⟩
  have hparse : parse_narinfo_text (renderNarinfo f (some oldSig))
      = Except.ok (some (stdDict f)) := by
    simp only [parse_narinfo_text, hrt, parse_lines_canonical f oldSig hrefs htok',
      allCheck_stdDict f h1.1 h2.1 h3.1 h4.1 h5.1 h6.1 h7.1 h8.1 h9.1 hrefs]
  simp only [narinfoSign, hparse]
  rfl

set_option maxHeartbeats 1600000 in
/-- `narinfo_dict_to_bytes` on the standard dictionary with a `Sig` entry is
the canonical rendering. -/
theorem serialize_stdDict (f : NarInfoFields) (s : List Char)
    (hrefs : f.references ≠ []) :
    narinfo_dict_to_bytes (stdDict f ++ [("Sig".toList, NarVal.str s)])
      = renderNarinfo f (some s) := by
  obtain ⟨sp, u, co, fh, fs, nh, ns, de, sy, refs⟩ := f
  cases refs with
  | nil => exact absurd rfl hrefs
  | cons r rs =>
    simp [narinfo_dict_to_bytes, orderedKeys, dictGet, stdDict, mkLine,
      renderNarinfo, narLines, joinLines, pyFmtVal, refsAsList, pyTruthy]

/-- C8 (amended): re-signing a canonical narinfo whose standard fields are all
present, well-formed and — for `References` — non-empty yields a narinfo with
the same ten field values and only a fresh `Sig`. -/
theorem c8_resign_preserves_fields (sigOf : List Char → List Char)
    (keyName : List Char) (f : NarInfoFields) (oldSig : List Char)
    (hf : goodFields f) (hs : goodSig oldSig) :
    (narinfoSign sigOf keyName (renderNarinfo f (some oldSig))).map
        narinfo_dict_to_bytes
      = Except.ok (renderNarinfo f (some (keyName ++ ':' ::
          sigOf (fingerprintBytes f.references f.storePath f.narHash
            f.narSize)))) := by
  rw [sign_canonical sigOf keyName f oldSig hf hs]
  simp only [Except.map]
  exact congrArg Except.ok (serialize_stdDict f _ hf.2.2.2.2.2.2.2.2.2.1)

/-- C8 witness: a concrete narinfo with two non-empty references round-trips
with only `Sig` changed. -/
theorem c8_resign_preserves_fields_witness :
    goodFields (NarInfoFields.mk "a".toList "b".toList "c".toList "d".toList
        "e".toList "f".toList "g".toList "h".toList "i".toList
        ["r1-a".toList, "r2-b".toList]) ∧
      goodSig "os".toList ∧
      (narinfoSign (fun _ => "S".toList) "k".toList
          (renderNarinfo (NarInfoFields.mk "a".toList "b".toList "c".toList
            "d".toList "e".toList "f".toList "g".toList "h".toList "i".toList
            ["r1-a".toList, "r2-b".toList]) (some "os".toList))).map
          narinfo_dict_to_bytes
        = Except.ok (renderNarinfo (NarInfoFields.mk "a".toList "b".toList
            "c".toList "d".toList "e".toList "f".toList "g".toList "h".toList
            "i".toList ["r1-a".toList, "r2-b".toList])
            (some ("k".toList ++ ':' ::
              (fun _ => "S".toList) (fingerprintBytes
                ["r1-a".toList, "r2-b".toList] "a".toList "f".toList
                "g".toList)))) :=
  ⟨by decide, by decide,
    c8_resign_preserves_fields (fun _ => "S".toList) "k".toList
      (NarInfoFields.mk "a".toList "b".toList "c".toList "d".toList "e".toList
        "f".toList "g".toList "h".toList "i".toList
        ["r1-a".toList, "r2-b".toList]) "os".toList (by decide) (by decide)⟩

/-- C8 counterexample: re-signing a narinfo whose `References` field is
present but empty does not preserve it — the serializer renders the empty
Python list as the literal `[]`, so the output is the rendering of a narinfo
whose `References` value is the token `[]`, not the empty input value. -/
theorem c8_resign_empty_references_counterexample :
    (narinfoSign (fun _ => "S".toList) "k".toList
        (renderNarinfo (NarInfoFields.mk "a".toList "b".toList "c".toList
          "d".toList "e".toList "f".toList "g".toList "h".toList "i".toList [])
          (some "os".toList))).map narinfo_dict_to_bytes
      = Except.ok (renderNarinfo (NarInfoFields.mk "a".toList "b".toList
          "c".toList "d".toList "e".toList "f".toList "g".toList "h".toList
          "i".toList ["[]".toList]) (some "k:S".toList)) ∧
    renderNarinfo (NarInfoFields.mk "a".toList "b".toList "c".toList
        "d".toList "e".toList "f".toList "g".toList "h".toList "i".toList [])
        (some "k:S".toList)
      ≠ renderNarinfo (NarInfoFields.mk "a".toList "b".toList "c".toList
          "d".toList "e".toList "f".toList "g".toList "h".toList "i".toList
          ["[]".toList]) (some "k:S".toList) :=
  ⟨rfl, by decide⟩

end CacheServer
